import Mathlib

/-!
Verification of the IA-alerter repository: a shallow embedding of the
stats-aggregation logic of `workload_runner.py` (`run_phase`,
`get_optimized_cost`, `save_stats`) and of the decision engine of
`alerter.py` (`analyze_workload`), together with theorems settling the
stated correctness claims.

Planner costs (Python floats) are modelled as rationals; timestamps as
naturals; the database / hypopg cost oracle as an explicit record of
responses so that every oracle-failure path of the Python code is a
concrete input of the model.
-/

namespace IAAlerter

/-! Workload runner: per-shape aggregation (`run_phase`, lines 420-462)

One entry of `self.stats['queries']`.  `used_indexes` entries carry the
fields stored by `get_optimized_cost` (`index_name`, `columns`, `table`,
`size_bytes`). -/

structure UsedIndex where
  index_name : String
  columns : List String
  table : String
  size_bytes : Nat
deriving DecidableEq

/-- Per-sample improvement, lines 421-424:
`((baseline - optimized) / baseline) * 100` when `baseline > 0`, else `0`. -/
def improvementPct (baseline optimized : ℚ) : ℚ :=
  if 0 < baseline then (baseline - optimized) / baseline * 100 else 0

/-- One aggregated entry of `self.stats['queries']` (lines 433-445). -/
structure QueryEntry where
  executions : Nat
  total_baseline_cost : ℚ
  total_optimized_cost : ℚ
  avg_improvement_pct : ℚ
  min_improvement_pct : ℚ
  max_improvement_pct : ℚ
  total_index_size_bytes : Nat
  used_indexes : List UsedIndex
deriving DecidableEq

/-- The fresh entry created on first sight of a query key (lines 433-445):
zero counters, `min_improvement_pct = 100.0`, `max_improvement_pct = -100.0`. -/
def initQueryEntry : QueryEntry :=
  { executions := 0
    total_baseline_cost := 0
    total_optimized_cost := 0
    avg_improvement_pct := 0
    min_improvement_pct := 100
    max_improvement_pct := -100
    total_index_size_bytes := 0
    used_indexes := [] }

/-- Lines 447-462: update an aggregated entry with one sample.  The running
average is recomputed from the new cumulative sums; min/max use this
sample's own `improvementPct`; sizes of all used indexes are added to
`total_index_size_bytes`; `used_indexes` is replaced by this execution's set. -/
def recordExecution (e : QueryEntry) (baseline optimized : ℚ)
    (used : List UsedIndex) : QueryEntry :=
  let imp := improvementPct baseline optimized
  let tb := e.total_baseline_cost + baseline
  let topt := e.total_optimized_cost + optimized
  { executions := e.executions + 1
    total_baseline_cost := tb
    total_optimized_cost := topt
    avg_improvement_pct := if 0 < tb then (tb - topt) / tb * 100 else 0
    min_improvement_pct := min e.min_improvement_pct imp
    max_improvement_pct := max e.max_improvement_pct imp
    total_index_size_bytes :=
      e.total_index_size_bytes + (used.map (fun i => i.size_bytes)).sum
    used_indexes := used }

/-- One recorded sample: baseline cost, optimized cost, used indexes. -/
abbrev Sample := ℚ × ℚ × List UsedIndex

/-- Fold a sequence of recorded samples into an entry, starting from `e`. -/
def runSamplesFrom (e : QueryEntry) (l : List Sample) : QueryEntry :=
  l.foldl (fun a s => recordExecution a s.1 s.2.1 s.2.2) e

/-- The aggregated entry after a sequence of recorded samples for one shape. -/
def runSamples (l : List Sample) : QueryEntry :=
  runSamplesFrom initQueryEntry l

theorem runSamplesFrom_append (e : QueryEntry) (l : List Sample) (s : Sample) :
    runSamplesFrom e (l ++ [s]) =
      recordExecution (runSamplesFrom e l) s.1 s.2.1 s.2.2 := by
  simp [runSamplesFrom, List.foldl_append]

theorem total_baseline_runSamplesFrom (e : QueryEntry) (l : List Sample) :
    (runSamplesFrom e l).total_baseline_cost =
      e.total_baseline_cost + (l.map (fun s => s.1)).sum := by
  induction l generalizing e with
  | nil => simp [runSamplesFrom]
  | cons s t ih =>
      simp only [runSamplesFrom, List.foldl_cons, List.map_cons, List.sum_cons]
      rw [show List.foldl (fun a s => recordExecution a s.1 s.2.1 s.2.2)
            (recordExecution e s.1 s.2.1 s.2.2) t =
          runSamplesFrom (recordExecution e s.1 s.2.1 s.2.2) t from rfl, ih]
      simp [recordExecution]
      ring

theorem total_optimized_runSamplesFrom (e : QueryEntry) (l : List Sample) :
    (runSamplesFrom e l).total_optimized_cost =
      e.total_optimized_cost + (l.map (fun s => s.2.1)).sum := by
  induction l generalizing e with
  | nil => simp [runSamplesFrom]
  | cons s t ih =>
      simp only [runSamplesFrom, List.foldl_cons, List.map_cons, List.sum_cons]
      rw [show List.foldl (fun a s => recordExecution a s.1 s.2.1 s.2.2)
            (recordExecution e s.1 s.2.1 s.2.2) t =
          runSamplesFrom (recordExecution e s.1 s.2.1 s.2.2) t from rfl, ih]
      simp [recordExecution]
      ring

/-- The running average always equals the closed formula over the entry's own
cumulative sums: it is recomputed from them after every sample. -/
def avgInvariant (e : QueryEntry) : Prop :=
  e.avg_improvement_pct =
    if 0 < e.total_baseline_cost then
      (e.total_baseline_cost - e.total_optimized_cost) /
        e.total_baseline_cost * 100
    else 0

theorem avgInvariant_init : avgInvariant initQueryEntry := by
  simp [avgInvariant, initQueryEntry]

theorem avgInvariant_record (e : QueryEntry) (b o : ℚ) (u : List UsedIndex) :
    avgInvariant (recordExecution e b o u) := by
  simp [avgInvariant, recordExecution]

theorem avgInvariant_runSamplesFrom (e : QueryEntry) (l : List Sample)
    (he : avgInvariant e) : avgInvariant (runSamplesFrom e l) := by
  induction l generalizing e with
  | nil => simpa [runSamplesFrom] using he
  | cons s t ih =>
      exact ih (recordExecution e s.1 s.2.1 s.2.2) (avgInvariant_record _ _ _ _)

/-- Claim C1: after any sequence of recorded samples with non-negative
baseline and optimized costs, `avg_improvement_pct` of the aggregated entry
equals `(Σbaseline - Σoptimized) / Σbaseline * 100` when `Σbaseline > 0`
and `0` when `Σbaseline = 0` (a ratio of cumulative sums), and its value
is at most `100`. -/
theorem avg_improvement_is_ratio_of_sums (l : List Sample)
    (hnn : ∀ s ∈ l, 0 ≤ s.1 ∧ 0 ≤ s.2.1) :
    ((runSamples l).avg_improvement_pct =
      if 0 < (l.map (fun s => s.1)).sum then
        ((l.map (fun s => s.1)).sum - (l.map (fun s => s.2.1)).sum) /
          (l.map (fun s => s.1)).sum * 100
      else 0) ∧
    (runSamples l).avg_improvement_pct ≤ 100 := by
  have hb : (runSamples l).total_baseline_cost = (l.map (fun s => s.1)).sum := by
    simpa [initQueryEntry] using
      total_baseline_runSamplesFrom initQueryEntry l
  have ho : (runSamples l).total_optimized_cost = (l.map (fun s => s.2.1)).sum := by
    simpa [initQueryEntry] using
      total_optimized_runSamplesFrom initQueryEntry l
  have hinv : avgInvariant (runSamples l) :=
    avgInvariant_runSamplesFrom initQueryEntry l avgInvariant_init
  have hform : (runSamples l).avg_improvement_pct =
      if 0 < (l.map (fun s => s.1)).sum then
        ((l.map (fun s => s.1)).sum - (l.map (fun s => s.2.1)).sum) /
          (l.map (fun s => s.1)).sum * 100
      else 0 := by
    rw [avgInvariant, hb, ho] at hinv
    exact hinv
  refine ⟨hform, ?_⟩
  rw [hform]
  by_cases hpos : 0 < (l.map (fun s => s.1)).sum
  · have hono : 0 ≤ (l.map (fun s => s.2.1)).sum := by
      apply List.sum_nonneg
      intro x hx
      rcases List.mem_map.mp hx with ⟨s, hs, rfl⟩
      exact (hnn s hs).2
    rw [if_pos hpos, div_mul_eq_mul_div, div_le_iff₀ hpos]
    nlinarith
  · rw [if_neg hpos]
    norm_num

/-- Witness for C1 at the concrete sample list `[(2, 1, [])]` (baseline 2,
optimized 1): the hypotheses hold and the average is `50`, within `(-∞, 100]`. -/
theorem avg_improvement_is_ratio_of_sums_witness :
    (∀ s ∈ [((2 : ℚ), (1 : ℚ), ([] : List UsedIndex))], 0 ≤ s.1 ∧ 0 ≤ s.2.1) ∧
    (((runSamples [((2 : ℚ), (1 : ℚ), ([] : List UsedIndex))]).avg_improvement_pct =
      if 0 < ([((2 : ℚ), (1 : ℚ), ([] : List UsedIndex))].map (fun s => s.1)).sum then
        (([((2 : ℚ), (1 : ℚ), ([] : List UsedIndex))].map (fun s => s.1)).sum -
          ([((2 : ℚ), (1 : ℚ), ([] : List UsedIndex))].map (fun s => s.2.1)).sum) /
          ([((2 : ℚ), (1 : ℚ), ([] : List UsedIndex))].map (fun s => s.1)).sum * 100
      else 0) ∧
    (runSamples [((2 : ℚ), (1 : ℚ), ([] : List UsedIndex))]).avg_improvement_pct ≤ 100) :=
  ⟨by decide, avg_improvement_is_ratio_of_sums _ (by decide)⟩

/-! Claim C7: min / max improvement tracking -/

theorem min_runSamplesFrom (e : QueryEntry) (l : List Sample) :
    (runSamplesFrom e l).min_improvement_pct =
      l.foldl (fun a s => min a (improvementPct s.1 s.2.1))
        e.min_improvement_pct := by
  induction l generalizing e with
  | nil => simp [runSamplesFrom]
  | cons s t ih =>
      have h := ih (recordExecution e s.1 s.2.1 s.2.2)
      simp only [runSamplesFrom, List.foldl_cons] at h ⊢
      rw [h]
      simp [recordExecution]

theorem max_runSamplesFrom (e : QueryEntry) (l : List Sample) :
    (runSamplesFrom e l).max_improvement_pct =
      l.foldl (fun a s => max a (improvementPct s.1 s.2.1))
        e.max_improvement_pct := by
  induction l generalizing e with
  | nil => simp [runSamplesFrom]
  | cons s t ih =>
      have h := ih (recordExecution e s.1 s.2.1 s.2.2)
      simp only [runSamplesFrom, List.foldl_cons] at h ⊢
      rw [h]
      simp [recordExecution]

theorem foldl_min_le_init (l : List ℚ) (a : ℚ) : l.foldl min a ≤ a := by
  induction l generalizing a with
  | nil => simp
  | cons x t ih => exact le_trans (ih (min a x)) (min_le_left a x)

theorem foldl_min_le_mem (l : List ℚ) (a x : ℚ) (hx : x ∈ l) :
    l.foldl min a ≤ x := by
  induction l generalizing a with
  | nil => simp at hx
  | cons y t ih =>
      rcases List.mem_cons.mp hx with rfl | hx'
      · exact le_trans (foldl_min_le_init t (min a x)) (min_le_right a x)
      · exact ih (min a y) hx'

theorem foldl_min_eq_init_or_mem (l : List ℚ) (a : ℚ) :
    l.foldl min a = a ∨ l.foldl min a ∈ l := by
  induction l generalizing a with
  | nil => simp
  | cons x t ih =>
      rcases ih (min a x) with h | h
      · rcases min_cases a x with ⟨hm, _⟩ | ⟨hm, _⟩
        · exact Or.inl (by simp only [List.foldl_cons]; rw [h, hm])
        · exact Or.inr (by simp only [List.foldl_cons]; rw [h, hm]; simp)
      · exact Or.inr (by simp only [List.foldl_cons]; exact List.mem_cons_of_mem _ h)

theorem foldl_max_ge_init (l : List ℚ) (a : ℚ) : a ≤ l.foldl max a := by
  induction l generalizing a with
  | nil => simp
  | cons x t ih => exact le_trans (le_max_left a x) (ih (max a x))

theorem foldl_max_ge_mem (l : List ℚ) (a x : ℚ) (hx : x ∈ l) :
    x ≤ l.foldl max a := by
  induction l generalizing a with
  | nil => simp at hx
  | cons y t ih =>
      rcases List.mem_cons.mp hx with rfl | hx'
      · exact le_trans (le_max_right a x) (foldl_max_ge_init t (max a x))
      · exact ih (max a y) hx'

theorem foldl_max_eq_init_or_mem (l : List ℚ) (a : ℚ) :
    l.foldl max a = a ∨ l.foldl max a ∈ l := by
  induction l generalizing a with
  | nil => simp
  | cons x t ih =>
      rcases ih (max a x) with h | h
      · rcases max_cases a x with ⟨hm, _⟩ | ⟨hm, _⟩
        · exact Or.inl (by simp only [List.foldl_cons]; rw [h, hm])
        · exact Or.inr (by simp only [List.foldl_cons]; rw [h, hm]; simp)
      · exact Or.inr (by simp only [List.foldl_cons]; exact List.mem_cons_of_mem _ h)

theorem improvementPct_le_100 (b o : ℚ) (_hb : 0 ≤ b) (ho : 0 ≤ o) :
    improvementPct b o ≤ 100 := by
  unfold improvementPct
  by_cases hpos : 0 < b
  · rw [if_pos hpos, div_mul_eq_mul_div, div_le_iff₀ hpos]
    nlinarith
  · rw [if_neg hpos]
    norm_num

/-- Claim C7 fails on the code for `max_improvement_pct`: with the single
sample baseline `1`, optimized `3` (both non-negative), the per-sample
improvement is `-200`, so the maximum over all samples is `-200`; but the
stored `max_improvement_pct` is the initial sentinel `-100`, because the
code initialises the maximum to `-100.0` and only ever takes `max` with it. -/
theorem minmax_counterexample :
    (runSamples [((1 : ℚ), (3 : ℚ), ([] : List UsedIndex))]).max_improvement_pct
        = -100 ∧
    improvementPct 1 3 = -200 ∧
    (runSamples [((1 : ℚ), (3 : ℚ), ([] : List UsedIndex))]).max_improvement_pct
        ≠ improvementPct 1 3 := by
  have h1 : improvementPct 1 3 = -200 := by
    rw [improvementPct, if_pos (by norm_num : (0 : ℚ) < 1)]
    norm_num
  have h2 : (runSamples [((1 : ℚ), (3 : ℚ), ([] : List UsedIndex))]).max_improvement_pct
      = max (-100) (improvementPct 1 3) := rfl
  have h3 : (runSamples [((1 : ℚ), (3 : ℚ), ([] : List UsedIndex))]).max_improvement_pct
      = -100 := by
    rw [h2, h1]
    exact max_eq_left (by norm_num)
  exact ⟨h3, h1, by rw [h3, h1]; norm_num⟩

/-- Claim C7 (amended): for every non-empty sequence of samples with
non-negative costs, `min_improvement_pct` equals the minimum of the
per-sample improvements (it is one of them and a lower bound of all of
them), while `max_improvement_pct` is an upper bound of the per-sample
improvements that equals either one of them or the initial sentinel `-100`
(the latter occurring exactly when every sample's improvement is below
`-100`). -/
theorem minmax_over_samples (l : List Sample) (hne : l ≠ [])
    (hnn : ∀ s ∈ l, 0 ≤ s.1 ∧ 0 ≤ s.2.1) :
    ((runSamples l).min_improvement_pct ∈
        l.map (fun s => improvementPct s.1 s.2.1) ∧
      ∀ x ∈ l.map (fun s => improvementPct s.1 s.2.1),
        (runSamples l).min_improvement_pct ≤ x) ∧
    ((∀ x ∈ l.map (fun s => improvementPct s.1 s.2.1),
        x ≤ (runSamples l).max_improvement_pct) ∧
      ((runSamples l).max_improvement_pct ∈
          l.map (fun s => improvementPct s.1 s.2.1) ∨
        (runSamples l).max_improvement_pct = -100)) := by
  have hminfold : (runSamples l).min_improvement_pct =
      (l.map (fun s => improvementPct s.1 s.2.1)).foldl min 100 := by
    rw [runSamples, min_runSamplesFrom]
    simp [initQueryEntry, List.foldl_map]
  have hmaxfold : (runSamples l).max_improvement_pct =
      (l.map (fun s => improvementPct s.1 s.2.1)).foldl max (-100) := by
    rw [runSamples, max_runSamplesFrom]
    simp [initQueryEntry, List.foldl_map]
  set imps := l.map (fun s => improvementPct s.1 s.2.1) with himps
  have himple : ∀ x ∈ imps, x ≤ 100 := by
    intro x hx
    rcases List.mem_map.mp hx with ⟨s, hs, rfl⟩
    exact improvementPct_le_100 s.1 s.2.1 (hnn s hs).1 (hnn s hs).2
  constructor
  · constructor
    · rcases foldl_min_eq_init_or_mem imps 100 with h | h
      · rcases List.exists_mem_of_ne_nil l hne with ⟨s, hs⟩
        have hsmem : improvementPct s.1 s.2.1 ∈ imps :=
          List.mem_map.mpr ⟨s, hs, rfl⟩
        have h1 : imps.foldl min 100 ≤ improvementPct s.1 s.2.1 :=
          foldl_min_le_mem imps 100 _ hsmem
        have h2 : improvementPct s.1 s.2.1 ≤ 100 := himple _ hsmem
        have : imps.foldl min 100 = improvementPct s.1 s.2.1 := by
          rw [h] at h1 ⊢
          exact le_antisymm (le_of_eq rfl) (le_trans h1 h2) |>.symm ▸
            le_antisymm h2 h1 ▸ rfl
        rw [hminfold, this]
        exact hsmem
      · rw [hminfold]; exact h
    · intro x hx
      rw [hminfold]
      exact foldl_min_le_mem imps 100 x hx
  · constructor
    · intro x hx
      rw [hmaxfold]
      exact foldl_max_ge_mem imps (-100) x hx
    · rw [hmaxfold]
      rcases foldl_max_eq_init_or_mem imps (-100) with h | h
      · exact Or.inr h
      · exact Or.inl h

/-- Witness for the amended C7 at the sample list `[(2, 1, [])]`. -/
theorem minmax_over_samples_witness :
    ([((2 : ℚ), (1 : ℚ), ([] : List UsedIndex))] ≠ ([] : List Sample)) ∧
    (∀ s ∈ [((2 : ℚ), (1 : ℚ), ([] : List UsedIndex))], 0 ≤ s.1 ∧ 0 ≤ s.2.1) ∧
    (((runSamples [((2 : ℚ), (1 : ℚ), ([] : List UsedIndex))]).min_improvement_pct ∈
        [((2 : ℚ), (1 : ℚ), ([] : List UsedIndex))].map
          (fun s => improvementPct s.1 s.2.1) ∧
      ∀ x ∈ [((2 : ℚ), (1 : ℚ), ([] : List UsedIndex))].map
          (fun s => improvementPct s.1 s.2.1),
        (runSamples [((2 : ℚ), (1 : ℚ), ([] : List UsedIndex))]).min_improvement_pct ≤ x) ∧
    ((∀ x ∈ [((2 : ℚ), (1 : ℚ), ([] : List UsedIndex))].map
          (fun s => improvementPct s.1 s.2.1),
        x ≤ (runSamples [((2 : ℚ), (1 : ℚ), ([] : List UsedIndex))]).max_improvement_pct) ∧
      ((runSamples [((2 : ℚ), (1 : ℚ), ([] : List UsedIndex))]).max_improvement_pct ∈
          [((2 : ℚ), (1 : ℚ), ([] : List UsedIndex))].map
            (fun s => improvementPct s.1 s.2.1) ∨
        (runSamples [((2 : ℚ), (1 : ℚ), ([] : List UsedIndex))]).max_improvement_pct
          = -100))) :=
  ⟨by decide, by decide, minmax_over_samples _ (by decide) (by decide)⟩

/-! Claim C8: additive, non-deduplicated index-size accounting -/

/-- Claim C8: each recorded execution adds the size of every index in its
`used_indexes` set to `total_index_size_bytes` (no deduplication), so `n`
executions that each used the same single index of size `s` grow the total
by exactly `n * s`. -/
theorem index_size_additive (e : QueryEntry) (b o : ℚ) :
    (∀ used : List UsedIndex,
      (recordExecution e b o used).total_index_size_bytes =
        e.total_index_size_bytes + (used.map (fun i => i.size_bytes)).sum) ∧
    (∀ (n : Nat) (idx : UsedIndex),
      (runSamplesFrom e (List.replicate n (b, o, [idx]))).total_index_size_bytes =
        e.total_index_size_bytes + n * idx.size_bytes) := by
  constructor
  · intro used
    rfl
  · intro n idx
    induction n generalizing e with
    | zero => simp [runSamplesFrom]
    | succ m ih =>
        rw [List.replicate_succ]
        have hstep : runSamplesFrom e ((b, o, [idx]) :: List.replicate m (b, o, [idx])) =
            runSamplesFrom (recordExecution e b o [idx])
              (List.replicate m (b, o, [idx])) := rfl
        rw [hstep, ih (recordExecution e b o [idx])]
        simp [recordExecution]
        ring

/-! Section on `get_optimized_cost`: combination enumeration and the 50-index cap
(lines 127-177) -/

/-- Embedding of `itertools.combinations`: all size-`k` subsequences of `l`, in the order
Python produces them (elements in input order, lexicographic by position). -/
def combos : Nat → List String → List (List String)
  | 0, _ => [[]]
  | _ + 1, [] => []
  | k + 1, x :: xs => (combos k xs).map (fun c => x :: c) ++ combos (k + 1) xs

theorem length_combos (l : List String) : ∀ k : Nat,
    (combos k l).length = l.length.choose k := by
  induction l with
  | nil =>
      intro k
      cases k with
      | zero => simp [combos]
      | succ m => simp [combos]
  | cons x xs ih =>
      intro k
      cases k with
      | zero => simp [combos]
      | succ m =>
          simp [combos, ih m, ih (m + 1), Nat.choose_succ_succ]

/-- Lines 129-143: the combination list built by the code — all singles,
then (when at least two new columns) all pairs, then (when at least three)
all triplets. -/
def allCombinations (new_columns : List String) : List (List String) :=
  new_columns.map (fun c => [c]) ++
  (if 2 ≤ new_columns.length then combos 2 new_columns else []) ++
  (if 3 ≤ new_columns.length then combos 3 new_columns else [])

theorem length_allCombinations (l : List String) :
    (allCombinations l).length =
      l.length.choose 1 + l.length.choose 2 + l.length.choose 3 := by
  unfold allCombinations
  by_cases h2 : 2 ≤ l.length
  · by_cases h3 : 3 ≤ l.length
    · simp [h2, h3, length_combos, Nat.choose_one_right, Nat.add_assoc]
    · have h3' : l.length < 3 := Nat.lt_of_not_le h3
      simp [h2, h3, length_combos, Nat.choose_one_right,
        Nat.choose_eq_zero_of_lt h3', Nat.add_assoc]
  · have h2' : l.length < 2 := Nat.lt_of_not_le h2
    have h3 : ¬ 3 ≤ l.length := by omega
    have h3' : l.length < 3 := by omega
    simp [h2, h3, length_combos, Nat.choose_one_right,
      Nat.choose_eq_zero_of_lt h2', Nat.choose_eq_zero_of_lt h3', Nat.add_assoc]

/-- Line 149: `max_indexes = 50`. -/
def maxIndexes : Nat := 50

/-- Lines 154-177, the inner loop over `all_combinations` for one table:
attempts a hypothetical-index creation per combination; `ok` tells which
creations the oracle accepts (a failed creation is caught and skipped
without counting, lines 176-177); stops once `index_count` reaches the cap.
Returns the created `(table, combination)` pairs and the final count. -/
def innerCreateLoop (ok : String → List String → Bool) (t : String) :
    List (List String) → Nat → List (String × List String) × Nat
  | [], count => ([], count)
  | c :: cs, count =>
    if maxIndexes ≤ count then ([], count)
    else if ok t c then
      let r := innerCreateLoop ok t cs (count + 1)
      ((t, c) :: r.1, r.2)
    else innerCreateLoop ok t cs count

/-- Lines 151-177, the outer loop over `tables`, threading `index_count`
through the per-table inner loops and honouring the cap between tables. -/
def outerCreateLoop (ok : String → List String → Bool) :
    List String → List (List String) → Nat → List (String × List String)
  | [], _, _ => []
  | t :: ts, combosList, count =>
    if maxIndexes ≤ count then []
    else
      let r := innerCreateLoop ok t combosList count
      r.1 ++ outerCreateLoop ok ts combosList r.2

/-- The hypothetical indexes created in one `get_optimized_cost` call:
the full creation loop started with `index_count = 0`. -/
def createdIndexes (ok : String → List String → Bool)
    (tables : List String) (new_columns : List String) :
    List (String × List String) :=
  outerCreateLoop ok tables (allCombinations new_columns) 0

theorem innerCreateLoop_eq (ok : String → List String → Bool) (t : String) :
    ∀ (cs : List (List String)) (count : Nat), count ≤ maxIndexes →
    innerCreateLoop ok t cs count =
      (((cs.filter (fun c => ok t c)).map (fun c => (t, c))).take
          (maxIndexes - count),
        min (count + (cs.filter (fun c => ok t c)).length) maxIndexes) := by
  intro cs
  induction cs with
  | nil =>
      intro count hcount
      simp [innerCreateLoop, Nat.min_eq_left hcount]
  | cons c cs ih =>
      intro count hcount
      by_cases hcap : maxIndexes ≤ count
      · have hc : count = maxIndexes := le_antisymm hcount hcap
        subst hc
        simp only [innerCreateLoop, if_pos (le_refl maxIndexes), Prod.mk.injEq]
        constructor
        · simp [Nat.sub_self]
        · omega
      · by_cases hok : ok t c
        · rw [innerCreateLoop, if_neg hcap, if_pos hok,
            ih (count + 1) (by omega)]
          simp only [List.filter_cons, hok, if_pos, List.map_cons,
            List.length_cons, Prod.mk.injEq]
          constructor
          · have htake : maxIndexes - count = (maxIndexes - (count + 1)) + 1 := by
              omega
            rw [htake, List.take_succ_cons]
          · omega
        · rw [innerCreateLoop, if_neg hcap, if_neg (by simpa using hok),
            ih count hcount]
          simp [List.filter_cons, hok]

theorem outerCreateLoop_eq (ok : String → List String → Bool)
    (combosList : List (List String)) :
    ∀ (ts : List String) (count : Nat), count ≤ maxIndexes →
    outerCreateLoop ok ts combosList count =
      (ts.flatMap (fun t =>
          (combosList.filter (fun c => ok t c)).map (fun c => (t, c)))).take
        (maxIndexes - count) := by
  intro ts
  induction ts with
  | nil =>
      intro count hcount
      simp [outerCreateLoop]
  | cons t ts ih =>
      intro count hcount
      by_cases hcap : maxIndexes ≤ count
      · have hc : count = maxIndexes := le_antisymm hcount hcap
        subst hc
        simp [outerCreateLoop]
      · rw [outerCreateLoop, if_neg hcap,
          innerCreateLoop_eq ok t combosList count hcount]
        simp only [List.flatMap_cons]
        rw [List.take_append_eq_append_take,
          ih (min (count + (combosList.filter (fun c => ok t c)).length)
            maxIndexes) (min_le_right _ _)]
        have harg : maxIndexes -
            min (count + (combosList.filter (fun c => ok t c)).length)
              maxIndexes =
            maxIndexes - count -
              ((combosList.filter (fun c => ok t c)).map
                (fun c => (t, c))).length := by
          simp only [List.length_map]
          omega
        rw [harg]

/-- Claim C4 fails on the code: with two referenced tables and one new
column, the code creates `2` hypothetical indexes (it crosses the single
combination with *each* table), while `C(1,1) + C(1,2) + C(1,3)` capped at
`50` is `1`. -/
theorem enumeration_count_counterexample :
    (createdIndexes (fun _ _ => true) ["a", "b"] ["c"]).length = 2 ∧
    min (Nat.choose 1 1 + Nat.choose 1 2 + Nat.choose 1 3) 50 = 1 := by
  constructor
  · rfl
  · decide

/-- Claim C4 (amended): in one `get_optimized_cost` call with `n` new
columns and every creation accepted by the oracle, the created hypothetical
indexes are exactly the crossing of every referenced table with every
column combination of size 1, 2, 3 — in table-major, combination-minor
order (singles, then pairs, then triplets) — truncated to the hard cap of
50; hence their number is `min (#tables * (C(n,1) + C(n,2) + C(n,3))) 50`,
reducing to the claimed `C(n,1) + C(n,2) + C(n,3)` capped at 50 only when a
single table is referenced; and for every oracle the cap 50 is never
exceeded. -/
theorem enumeration_bound (tables new_columns : List String) :
    createdIndexes (fun _ _ => true) tables new_columns =
      (tables.flatMap (fun t =>
        (allCombinations new_columns).map (fun c => (t, c)))).take 50 ∧
    (createdIndexes (fun _ _ => true) tables new_columns).length =
      min (tables.length *
        (new_columns.length.choose 1 + new_columns.length.choose 2 +
          new_columns.length.choose 3)) 50 ∧
    ∀ (ok : String → List String → Bool) (ts : List String)
      (cl : List (List String)),
      (outerCreateLoop ok ts cl 0).length ≤ 50 := by
  have hmain : createdIndexes (fun _ _ => true) tables new_columns =
      (tables.flatMap (fun t =>
        (allCombinations new_columns).map (fun c => (t, c)))).take 50 := by
    rw [createdIndexes,
      outerCreateLoop_eq (fun _ _ => true) (allCombinations new_columns)
        tables 0 (by simp [maxIndexes])]
    simp [maxIndexes]
  refine ⟨hmain, ?_, ?_⟩
  · rw [hmain, List.length_take, List.length_flatMap]
    have hlen : ∀ ts : List String, (ts.map (List.length ∘ fun t =>
        (allCombinations new_columns).map (fun c => (t, c)))).sum =
        ts.length * (allCombinations new_columns).length := by
      intro ts
      induction ts with
      | nil => simp
      | cons t ts iht =>
          simp only [List.map_cons, List.sum_cons, Function.comp_apply,
            List.length_map, List.length_cons, iht]
          ring
    rw [hlen tables, length_allCombinations, Nat.min_comm]
  · intro ok ts cl
    rw [outerCreateLoop_eq ok cl ts 0 (by simp [maxIndexes]), List.length_take]
    simp only [maxIndexes, Nat.sub_zero]
    omega

/-! Section on `get_optimized_cost`: session state and exit paths (lines 96-240)

The database / hypopg oracle is modelled as a record of responses; every
`try/except` of the Python code that swallows one operation's failure is a
`Bool`-valued field (`False` means the operation raised and was caught).
The session's hypothetical-index state is a list of active oids; the server
hands out fresh sequential oids. -/

structure CostOracle where
  /-- Obtaining the cursor / loading hypopg succeeds (outer `try`, line 105). -/
  curOk : Bool
  /-- Result of `get_baseline_cost`: `none` when `EXPLAIN` raised (lines 83-94). -/
  baseline : Option ℚ
  /-- Whether `hypopg_create_index` succeeds for a `(table, columns)` pair
  (failures are caught per creation, lines 176-177). -/
  createOk : String → List String → Bool
  /-- The `EXPLAIN` cost with all hypothetical indexes visible: `none` when the
  request raised and was caught (lines 183-203). -/
  explainCost : Option ℚ
  /-- Whether a created index's name appears in the returned plan (line 195). -/
  usedPred : Nat → Bool
  /-- Size reported by `hypopg_relation_size` per oid; `0` stands for the caught-failure
  fallback of lines 167-172. -/
  sizeOf : Nat → Nat
  /-- Whether `hypopg_drop_index` succeeds for an oid (failures are caught
  and ignored, lines 225-228). -/
  dropOk : Nat → Bool

/-- Session-scoped hypothetical-index state: the active oids and the next
fresh oid the server will assign. -/
structure OSession where
  active : List Nat
  nextOid : Nat
deriving DecidableEq

/-- Result of one `get_optimized_cost` call: the returned cost, the session
state after the call, the oids created during the call, and the
`used_by_query` oids recorded for the caller. -/
structure OptCostResult where
  cost : Option ℚ
  session : OSession
  createdOids : List Nat
  usedOids : List Nat
deriving DecidableEq

/-- Line 118: the columns not already covered by a real index. -/
def newColumnsOf (existing columns : List String) : List String :=
  columns.filter (fun c => !existing.contains c)

/-- The `(table, combination)` pairs for which this call successfully created
a hypothetical index (lines 127-177). -/
def callCreated (o : CostOracle) (existing tables columns : List String) :
    List (String × List String) :=
  createdIndexes o.createOk tables (newColumnsOf existing columns)

/-- The oids the server assigned to this call's hypothetical indexes. -/
def callOids (o : CostOracle) (existing tables columns : List String)
    (s : OSession) : List Nat :=
  List.range' s.nextOid (callCreated o existing tables columns).length

/-- Lines 180-203: the with-hypotheticals cost; `EXPLAIN` only runs when at
least one hypothetical index was created, and its own failure yields `none`. -/
def callCost (o : CostOracle) (existing tables columns : List String) :
    Option ℚ :=
  if (callCreated o existing tables columns).isEmpty then none
  else o.explainCost

/-- Shallow embedding of `get_optimized_cost` (lines 96-240) over the
response oracle, tracking the session's hypothetical-index state:

* empty tables or columns → `None` (line 114);
* no new (unindexed) columns → baseline cost (lines 118-122);
* otherwise create capped hypothetical indexes on every table × combination
  (lines 127-177), run one `EXPLAIN` with all of them visible when at least
  one was created (lines 180-203), attempt to drop each created index —
  a failed drop is swallowed and the index stays active (lines 223-228) —
  and return the obtained cost, else the baseline (lines 233-237);
* any failure of the outer body before creation (`curOk = false`) → `None`
  with an unchanged session (lines 238-240). -/
def getOptimizedCost (o : CostOracle) (existing : List String)
    (tables columns : List String) (s : OSession) : OptCostResult :=
  if o.curOk = false then ⟨none, s, [], []⟩
  else if tables.isEmpty || columns.isEmpty then ⟨none, s, [], []⟩
  else if (newColumnsOf existing columns).isEmpty then ⟨o.baseline, s, [], []⟩
  else
    ⟨if (callCost o existing tables columns).isSome then
        callCost o existing tables columns
      else o.baseline,
      ⟨(callOids o existing tables columns s).foldl
          (fun act oid => if o.dropOk oid then act.erase oid else act)
          (s.active ++ callOids o existing tables columns s),
        s.nextOid + (callCreated o existing tables columns).length⟩,
      callOids o existing tables columns s,
      if (callCost o existing tables columns).isSome then
        (callOids o existing tables columns s).filter o.usedPred
      else []⟩

/-- The fully-guarded main branch of `getOptimizedCost`, as one equation. -/
theorem getOptimizedCost_main (o : CostOracle)
    (existing tables columns : List String) (s : OSession)
    (hcur : o.curOk = true)
    (hne : (tables.isEmpty || columns.isEmpty) ≠ true)
    (hnew : (newColumnsOf existing columns).isEmpty ≠ true) :
    getOptimizedCost o existing tables columns s =
      ⟨if (callCost o existing tables columns).isSome then
          callCost o existing tables columns
        else o.baseline,
        ⟨(callOids o existing tables columns s).foldl
            (fun act oid => if o.dropOk oid then act.erase oid else act)
            (s.active ++ callOids o existing tables columns s),
          s.nextOid + (callCreated o existing tables columns).length⟩,
        callOids o existing tables columns s,
        if (callCost o existing tables columns).isSome then
          (callOids o existing tables columns s).filter o.usedPred
        else []⟩ := by
  unfold getOptimizedCost
  rw [if_neg (by simp [hcur]), if_neg hne, if_neg hnew]

/-- Erasing each element of `oids` once from `acc`, in order, yields a list
in which any `x` occurs `acc.count x - oids.count x` times. -/
theorem count_foldl_erase (oids : List Nat) :
    ∀ (acc : List Nat) (x : Nat),
    (oids.foldl (fun a oid => a.erase oid) acc).count x =
      acc.count x - oids.count x := by
  induction oids with
  | nil => intro acc x; simp
  | cons o rest ih =>
      intro acc x
      simp only [List.foldl_cons, ih (acc.erase o) x]
      by_cases hx : x = o
      · subst hx
        rw [List.count_erase_self]
        simp [List.count_cons_self]
        omega
      · rw [List.count_erase_of_ne hx]
        rw [List.count_cons_of_ne hx]

theorem foldl_erase_congr (p : Nat → Bool) (oids : List Nat) :
    ∀ acc : List Nat, (∀ oid ∈ oids, p oid = true) →
    (oids.foldl (fun a oid => if p oid then a.erase oid else a) acc) =
      oids.foldl (fun a oid => a.erase oid) acc := by
  induction oids with
  | nil => intro acc _; rfl
  | cons o rest ih =>
      intro acc hall
      simp only [List.foldl_cons, hall o (List.mem_cons_self o rest),
        if_pos]
      exact ih (acc.erase o) (fun oid h => hall oid (List.mem_cons_of_mem o h))

/-- An oracle whose `hypopg_drop_index` always fails (the failure is
swallowed by the bare `except: pass` of lines 227-228). -/
def dropFailingOracle : CostOracle :=
  { curOk := true
    baseline := some 10
    createOk := fun _ _ => true
    explainCost := some 5
    usedPred := fun _ => false
    sizeOf := fun _ => 0
    dropOk := fun _ => false }

/-- Claim C3 fails on the code: when `hypopg_drop_index` raises, the bare
`except: pass` swallows the failure and the call returns with the created
hypothetical index still active.  Concretely, with one table and one new
column the call creates the oid-0 hypothetical index, and after the call
oid 0 is still in the session's active set. -/
theorem cleanup_counterexample :
    (getOptimizedCost dropFailingOracle [] ["t"] ["c"] ⟨[], 0⟩).createdOids
        = [0] ∧
    0 ∈ (getOptimizedCost dropFailingOracle [] ["t"] ["c"] ⟨[], 0⟩).session.active := by
  constructor
  · rfl
  · decide

/-- Claim C3 (amended): on every exit path of `get_optimized_cost` a drop is
attempted for every hypothetical index created by the call, and whenever the
oracle accepts every one of those drop requests, zero hypothetical indexes
created by the call remain active afterwards.  (When a drop request fails,
its caught `except: pass` leaves that index active, as the counterexample
shows.) -/
theorem cleanup_invariant (o : CostOracle) (existing tables columns : List String)
    (s : OSession)
    (hfresh : ∀ a ∈ s.active, a < s.nextOid)
    (hdrop : ∀ oid ∈ (getOptimizedCost o existing tables columns s).createdOids,
      o.dropOk oid = true) :
    ∀ oid ∈ (getOptimizedCost o existing tables columns s).createdOids,
      oid ∉ (getOptimizedCost o existing tables columns s).session.active := by
  intro oid hmem
  by_cases hcur : o.curOk = true
  · by_cases hempty : (tables.isEmpty || columns.isEmpty) = true
    · have heq : getOptimizedCost o existing tables columns s =
          ⟨none, s, [], []⟩ := by
        unfold getOptimizedCost
        rw [if_neg (by simp [hcur]), if_pos hempty]
      rw [heq] at hmem
      exact absurd (show oid ∈ ([] : List Nat) from hmem) (by simp)
    · by_cases hnew : (newColumnsOf existing columns).isEmpty = true
      · have heq : getOptimizedCost o existing tables columns s =
            ⟨o.baseline, s, [], []⟩ := by
          unfold getOptimizedCost
          rw [if_neg (by simp [hcur]), if_neg hempty, if_pos hnew]
        rw [heq] at hmem
        exact absurd (show oid ∈ ([] : List Nat) from hmem) (by simp)
      · rw [getOptimizedCost_main o existing tables columns s hcur hempty hnew]
          at hmem hdrop ⊢
        set oids := callOids o existing tables columns s with hoids
        have hmem' : oid ∈ oids := hmem
        have hdrop' : ∀ i ∈ oids, o.dropOk i = true := hdrop
        intro hactive
        have hactive' : oid ∈ oids.foldl
            (fun act i => if o.dropOk i then act.erase i else act)
            (s.active ++ oids) := hactive
        rw [foldl_erase_congr o.dropOk oids _ hdrop'] at hactive'
        have hcnt := count_foldl_erase oids (s.active ++ oids) oid
        have hnodup : oids.Nodup := List.nodup_range' _ _
        have hoid_not_active : oid ∉ s.active := by
          intro hin
          have h1 : s.nextOid ≤ oid := (List.mem_range'_1.mp hmem').1
          have h2 : oid < s.nextOid := hfresh oid hin
          omega
        have hcount_active : List.count oid s.active = 0 :=
          List.count_eq_zero.mpr hoid_not_active
        have hcount_oids : List.count oid oids = 1 :=
          List.count_eq_one_of_mem hnodup hmem'
        rw [List.count_append, hcount_active, hcount_oids] at hcnt
        have hzero : List.count oid
            (oids.foldl (fun a i => a.erase i) (s.active ++ oids)) = 0 := by
          omega
        exact absurd (List.count_pos_iff.mpr hactive') (by omega)
  · have heq : getOptimizedCost o existing tables columns s =
        ⟨none, s, [], []⟩ := by
      unfold getOptimizedCost
      rw [if_pos (by revert hcur; cases o.curOk <;> simp)]
    rw [heq] at hmem
    exact absurd (show oid ∈ ([] : List Nat) from hmem) (by simp)

/-- An oracle for which every operation succeeds. -/
def allOkOracle : CostOracle :=
  { curOk := true
    baseline := some 10
    createOk := fun _ _ => true
    explainCost := some 5
    usedPred := fun _ => true
    sizeOf := fun _ => 1000
    dropOk := fun _ => true }

/-- Witness for the amended C3: with the all-succeeding oracle, one table
and one column, the call creates oid 0 and afterwards oid 0 is no longer
active. -/
theorem cleanup_invariant_witness :
    (∀ a ∈ ([] : List Nat), a < 0) ∧
    (∀ oid ∈ (getOptimizedCost allOkOracle [] ["t"] ["c"] ⟨[], 0⟩).createdOids,
      allOkOracle.dropOk oid = true) ∧
    (∀ oid ∈ (getOptimizedCost allOkOracle [] ["t"] ["c"] ⟨[], 0⟩).createdOids,
      oid ∉ (getOptimizedCost allOkOracle [] ["t"] ["c"] ⟨[], 0⟩).session.active) :=
  ⟨by simp, by decide,
    cleanup_invariant allOkOracle [] ["t"] ["c"] ⟨[], 0⟩ (by simp) (by decide)⟩

/-- Claim C5: for every query with non-empty extracted tables and columns
(and a live cursor), `get_optimized_cost` returns the oracle's
with-hypotheticals cost when it is obtained, and otherwise returns the
baseline cost — failure falls back to "no improvement" instead of
propagating an error. -/
theorem optimized_cost_fallback (o : CostOracle)
    (existing tables columns : List String) (s : OSession)
    (hcur : o.curOk = true) (ht : tables ≠ []) (hc : columns ≠ []) :
    (∀ c : ℚ,
      (getOptimizedCost o existing tables columns s).createdOids ≠ [] →
      o.explainCost = some c →
      (getOptimizedCost o existing tables columns s).cost = some c) ∧
    (((getOptimizedCost o existing tables columns s).createdOids = [] ∨
        o.explainCost = none) →
      (getOptimizedCost o existing tables columns s).cost = o.baseline) := by
  have hne : (tables.isEmpty || columns.isEmpty) ≠ true := by
    intro h
    rcases (Bool.or_eq_true _ _).mp h with h' | h'
    · exact ht (List.isEmpty_iff.mp h')
    · exact hc (List.isEmpty_iff.mp h')
  by_cases hnew : (newColumnsOf existing columns).isEmpty = true
  · have heq : getOptimizedCost o existing tables columns s =
        ⟨o.baseline, s, [], []⟩ := by
      unfold getOptimizedCost
      rw [if_neg (by simp [hcur]), if_neg hne, if_pos hnew]
    rw [heq]
    exact ⟨fun c hcontra _ => absurd rfl hcontra, fun _ => rfl⟩
  · rw [getOptimizedCost_main o existing tables columns s hcur hne hnew]
    by_cases hcre : (callCreated o existing tables columns).isEmpty = true
    · have hcost : callCost o existing tables columns = none := by
        unfold callCost
        rw [if_pos hcre]
      constructor
      · intro c hcontra _
        exfalso
        apply hcontra
        show callOids o existing tables columns s = []
        unfold callOids
        rw [List.isEmpty_iff.mp hcre]
        rfl
      · intro _
        show (if (callCost o existing tables columns).isSome then
            callCost o existing tables columns else o.baseline) = o.baseline
        rw [hcost]
        rfl
    · have hcost : callCost o existing tables columns = o.explainCost := by
        unfold callCost
        rw [if_neg hcre]
      constructor
      · intro c _ hex
        show (if (callCost o existing tables columns).isSome then
            callCost o existing tables columns else o.baseline) = some c
        rw [hcost, hex]
        rfl
      · intro h
        rcases h with h | h
        · exfalso
          have h' : callOids o existing tables columns s = [] := h
          unfold callOids at h'
          have hlen : (callCreated o existing tables columns).length = 0 :=
            List.range'_eq_nil.mp h'
          exact hcre (by
            rw [List.isEmpty_iff]
            exact List.length_eq_zero.mp hlen)
        · show (if (callCost o existing tables columns).isSome then
              callCost o existing tables columns else o.baseline) = o.baseline
          rw [hcost, h]
          rfl

/-- Witness for C5: with the all-succeeding oracle the call returns the
with-hypotheticals cost `5`; the hypotheses of the theorem hold at this
input. -/
theorem optimized_cost_fallback_witness :
    (allOkOracle.curOk = true ∧ (["t"] : List String) ≠ [] ∧
      (["c"] : List String) ≠ []) ∧
    ((∀ c : ℚ,
      (getOptimizedCost allOkOracle [] ["t"] ["c"] ⟨[], 0⟩).createdOids ≠ [] →
      allOkOracle.explainCost = some c →
      (getOptimizedCost allOkOracle [] ["t"] ["c"] ⟨[], 0⟩).cost = some c) ∧
    (((getOptimizedCost allOkOracle [] ["t"] ["c"] ⟨[], 0⟩).createdOids = [] ∨
        allOkOracle.explainCost = none) →
      (getOptimizedCost allOkOracle [] ["t"] ["c"] ⟨[], 0⟩).cost =
        allOkOracle.baseline)) :=
  ⟨⟨rfl, by simp, by simp⟩,
    optimized_cost_fallback allOkOracle [] ["t"] ["c"] ⟨[], 0⟩ rfl
      (by simp) (by simp)⟩

/-! Alerter decision engine (`alerter.py`, `analyze_workload`, lines 112-295) -/

/-- One query shape's entry as read by the alerter from the stats snapshot
(lines 150-154): cumulative costs, the shape's own stored weighted
`avg_improvement_pct`, and its hot columns. -/
structure ShapeData where
  total_baseline_cost : ℚ
  total_optimized_cost : ℚ
  avg_improvement_pct : ℚ
  hot_columns : List String
deriving DecidableEq

/-- The running aggregates of the loop at lines 149-162. -/
structure AnalyzeAccum where
  total_baseline_cost : ℚ
  total_improvement_cost : ℚ
  all_improvement_pcts : List ℚ
  hot_column_counts : List (String × Nat)
deriving DecidableEq

/-- Python-dict counting (`hot_columns_all_dict[col] = get(col, 0) + 1`,
line 162): increment an existing key in place, else append it with count 1 —
preserving first-seen key order, as Python dict iteration does. -/
def bumpCount (counts : List (String × Nat)) (col : String) :
    List (String × Nat) :=
  if counts.any (fun p => p.1 = col) then
    counts.map (fun p => if p.1 = col then (p.1, p.2 + 1) else p)
  else counts ++ [(col, 1)]

/-- Lines 150-162: fold one shape into the running aggregates. -/
def accumShape (acc : AnalyzeAccum) (sd : ShapeData) : AnalyzeAccum :=
  { total_baseline_cost := acc.total_baseline_cost + sd.total_baseline_cost
    total_improvement_cost := acc.total_improvement_cost +
      (sd.total_baseline_cost - sd.total_optimized_cost)
    all_improvement_pcts := acc.all_improvement_pcts ++ [sd.avg_improvement_pct]
    hot_column_counts := sd.hot_columns.foldl bumpCount acc.hot_column_counts }

/-- The aggregates after iterating over all shapes of the snapshot, in the
snapshot's (insertion) order. -/
def analyzeAccum (queries : List (String × ShapeData)) : AnalyzeAccum :=
  queries.foldl (fun a q => accumShape a q.2) ⟨0, 0, [], []⟩

/-- Line 175: `avg_improvement_pct = sum(pcts) / len(pcts)`, `0` when the
list is empty. -/
def analyzeAvg (queries : List (String × ShapeData)) : ℚ :=
  let pcts := (analyzeAccum queries).all_improvement_pcts
  if pcts.isEmpty then 0 else pcts.sum / (pcts.length : ℚ)

/-- Insert one `(column, count)` item into a descending-by-count list,
placing it after every already-present item of greater-or-equal count:
the insertion step of a stable descending sort, which is what Python's
`sorted(..., key=lambda x: x[1], reverse=True)` (line 193) computes. -/
def insertDesc (x : String × Nat) : List (String × Nat) → List (String × Nat)
  | [] => [x]
  | y :: ys => if y.2 ≤ x.2 then x :: y :: ys else y :: insertDesc x ys

/-- Stable descending sort by count (line 193). -/
def sortDesc : List (String × Nat) → List (String × Nat)
  | [] => []
  | x :: xs => insertDesc x (sortDesc xs)

/-- Line 193: hot columns ranked by distinct-shape frequency, descending,
ties kept in first-seen order. -/
def rankHotColumns (queries : List (String × ShapeData)) :
    List (String × Nat) :=
  sortDesc (analyzeAccum queries).hot_column_counts

/-- Line 197: `[col for col, count in hot_columns_all if col not in
existing][:3]`. -/
def candidatesOf (existing : List String)
    (queries : List (String × ShapeData)) : List String :=
  (((rankHotColumns queries).map (fun p => p.1)).filter
    (fun c => !existing.contains c)).take 3

inductive DecisionKind
  | NO_ACTION
  | CREATE_INDEXES
deriving DecidableEq

/-- Which guard produced the decision's reason string. -/
inductive ReasonKind
  /-- Line 210: "All hot columns already indexed". -/
  | allIndexed
  /-- Line 250: "Average improvement ... < threshold ...". -/
  | belowThreshold
  /-- Line 253: "Net benefit ... <= 0 (retuning cost exceeds savings)". -/
  | netBenefitNonPositive
  /-- Line 256: "Indexes ... exceed budget ...". -/
  | exceedsSpaceBudget
  /-- Line 259: "Improvement ... >= ... AND net benefit ... > 0". -/
  | thresholdAndBenefitMet
deriving DecidableEq

/-- The recommendation record built at lines 206-216 / 271-281. -/
structure Recommendation where
  decision : DecisionKind
  reason : ReasonKind
  improvement_pct : ℚ
  improvement_value : ℚ
  retuning_cost : ℚ
  net_benefit : ℚ
  recommended_indexes : List (String × Nat)
deriving DecidableEq

/-- Alerter configuration (lines 20-23): `improvement_threshold` (percent)
and `max_space_budget` (bytes, already converted from MB). -/
structure AlerterConfig where
  improvement_threshold : ℚ
  max_space_budget : Nat
deriving DecidableEq

/-- The database-probe responses `analyze_workload` consumes: the
full-table-scan cost proxy of `estimate_create_index_cost` (lines 75-86)
and the realized size probe of `get_real_index_size` (lines 41-73, with its
constant fallback folded into the response). -/
structure AlerterOracle where
  createIndexCost : ℚ
  realIndexSize : String → Nat

/-- Lines 219-227: `Σ over candidates of (create_cost + drop_cost)`, with
`drop_cost = 0.2 × create_cost` (line 90). -/
def analyzeRetuningCost (ora : AlerterOracle) (existing : List String)
    (queries : List (String × ShapeData)) : ℚ :=
  (candidatesOf existing queries).foldl
    (fun t _ => t + (ora.createIndexCost + ora.createIndexCost * (1 / 5))) 0

/-- Line 230: `net_benefit = total_improvement_cost - total_retuning_cost`. -/
def analyzeNetBenefit (ora : AlerterOracle) (existing : List String)
    (queries : List (String × ShapeData)) : ℚ :=
  (analyzeAccum queries).total_improvement_cost -
    analyzeRetuningCost ora existing queries

/-- Line 238: `total_new_space = sum(index_sizes.values())`. -/
def analyzeSpace (ora : AlerterOracle) (existing : List String)
    (queries : List (String × ShapeData)) : Nat :=
  ((candidatesOf existing queries).map (fun c => ora.realIndexSize c)).sum

/-- Shallow embedding of `analyze_workload` (lines 112-295) for a loaded
snapshot in the `queries`-dict format: `none` models the early `return None`
for an empty snapshot (lines 128-130); an empty candidate list yields
NO_ACTION "already indexed" (lines 204-217); otherwise the three ordered
guards of lines 244-259 decide, and only the CREATE_INDEXES branch fills
`recommended_indexes` (lines 262-269). -/
def analyzeWorkload (cfg : AlerterConfig) (ora : AlerterOracle)
    (existing : List String) (queries : List (String × ShapeData)) :
    Option Recommendation :=
  if queries.isEmpty then none
  else
    if (candidatesOf existing queries).isEmpty then
      some ⟨.NO_ACTION, .allIndexed, analyzeAvg queries,
        (analyzeAccum queries).total_improvement_cost, 0, 0, []⟩
    else
      if analyzeAvg queries < cfg.improvement_threshold then
        some ⟨.NO_ACTION, .belowThreshold, analyzeAvg queries,
          (analyzeAccum queries).total_improvement_cost,
          analyzeRetuningCost ora existing queries,
          analyzeNetBenefit ora existing queries, []⟩
      else if analyzeNetBenefit ora existing queries ≤ 0 then
        some ⟨.NO_ACTION, .netBenefitNonPositive, analyzeAvg queries,
          (analyzeAccum queries).total_improvement_cost,
          analyzeRetuningCost ora existing queries,
          analyzeNetBenefit ora existing queries, []⟩
      else if cfg.max_space_budget < analyzeSpace ora existing queries then
        some ⟨.NO_ACTION, .exceedsSpaceBudget, analyzeAvg queries,
          (analyzeAccum queries).total_improvement_cost,
          analyzeRetuningCost ora existing queries,
          analyzeNetBenefit ora existing queries, []⟩
      else
        some ⟨.CREATE_INDEXES, .thresholdAndBenefitMet, analyzeAvg queries,
          (analyzeAccum queries).total_improvement_cost,
          analyzeRetuningCost ora existing queries,
          analyzeNetBenefit ora existing queries,
          (candidatesOf existing queries).map
            (fun c => (c, ora.realIndexSize c))⟩

/-- Claim C2: with a non-empty snapshot and non-empty candidate list, the
guards apply in fixed order with first match winning: a mean improvement
below the threshold yields NO_ACTION citing the threshold — regardless of
net benefit and space — and the decision is CREATE_INDEXES exactly when all
three guards pass. -/
theorem guard_order (cfg : AlerterConfig) (ora : AlerterOracle)
    (existing : List String) (queries : List (String × ShapeData))
    (hq : queries ≠ []) (hcand : candidatesOf existing queries ≠ []) :
    (analyzeAvg queries < cfg.improvement_threshold →
      (analyzeWorkload cfg ora existing queries).map
          (fun r => (r.decision, r.reason)) =
        some (DecisionKind.NO_ACTION, ReasonKind.belowThreshold)) ∧
    ((analyzeWorkload cfg ora existing queries).map (fun r => r.decision) =
        some DecisionKind.CREATE_INDEXES ↔
      (¬ analyzeAvg queries < cfg.improvement_threshold ∧
        ¬ analyzeNetBenefit ora existing queries ≤ 0 ∧
        ¬ cfg.max_space_budget < analyzeSpace ora existing queries)) := by
  unfold analyzeWorkload
  rw [if_neg (by simpa [List.isEmpty_iff] using hq),
    if_neg (by simpa [List.isEmpty_iff] using hcand)]
  constructor
  · intro hlt
    rw [if_pos hlt]
    rfl
  · by_cases h1 : analyzeAvg queries < cfg.improvement_threshold
    · rw [if_pos h1]
      simp [h1]
    · rw [if_neg h1]
      by_cases h2 : analyzeNetBenefit ora existing queries ≤ 0
      · rw [if_pos h2]
        simp [h1, h2]
      · rw [if_neg h2]
        by_cases h3 : cfg.max_space_budget < analyzeSpace ora existing queries
        · rw [if_pos h3]
          simp [h1, h2, h3]
        · rw [if_neg h3]
          simp [h1, h2, h3]

/-- A one-shape snapshot used to instantiate the decision-engine theorems. -/
def sampleQueries : List (String × ShapeData) :=
  [("q1", ⟨1000, 400, 60, ["colA"]⟩)]

/-- Witness for C2: a snapshot with one shape at 60% improvement, an oracle
and a threshold of 20 make all guards pass, and the theorem's equivalence
certifies the CREATE_INDEXES decision at this input. -/
theorem guard_order_witness :
    (sampleQueries ≠ [] ∧ candidatesOf [] sampleQueries ≠ []) ∧
    ((analyzeAvg sampleQueries < (20 : ℚ) →
      (analyzeWorkload ⟨20, 500000000⟩ ⟨100, fun _ => 1000⟩ [] sampleQueries).map
          (fun r => (r.decision, r.reason)) =
        some (DecisionKind.NO_ACTION, ReasonKind.belowThreshold)) ∧
    ((analyzeWorkload ⟨20, 500000000⟩ ⟨100, fun _ => 1000⟩ [] sampleQueries).map
          (fun r => r.decision) =
        some DecisionKind.CREATE_INDEXES ↔
      (¬ analyzeAvg sampleQueries < (20 : ℚ) ∧
        ¬ analyzeNetBenefit ⟨100, fun _ => 1000⟩ [] sampleQueries ≤ 0 ∧
        ¬ (500000000 : Nat) < analyzeSpace ⟨100, fun _ => 1000⟩ [] sampleQueries))) :=
  ⟨⟨by decide, by decide⟩,
    guard_order ⟨20, 500000000⟩ ⟨100, fun _ => 1000⟩ [] sampleQueries
      (by decide) (by decide)⟩

/-! Claim C6: the decision engine's mean is a plain mean over shapes -/

theorem all_improvement_pcts_foldl (queries : List (String × ShapeData)) :
    ∀ acc : AnalyzeAccum,
    (queries.foldl (fun a q => accumShape a q.2) acc).all_improvement_pcts =
      acc.all_improvement_pcts ++
        queries.map (fun q => q.2.avg_improvement_pct) := by
  induction queries with
  | nil => intro acc; simp
  | cons q rest ih =>
      intro acc
      simp only [List.foldl_cons, List.map_cons, ih (accumShape acc q.2)]
      simp [accumShape]

/-- Claim C6: for every non-empty snapshot, the decision engine's
`avg_improvement_pct` is the plain arithmetic mean, over query shapes, of
each shape's own stored weighted `avg_improvement_pct` — every shape counted
exactly once, independent of its execution count (which the formula does not
mention at all). -/
theorem analyzeAvg_is_plain_mean (queries : List (String × ShapeData))
    (hq : queries ≠ []) :
    analyzeAvg queries =
      (queries.map (fun q => q.2.avg_improvement_pct)).sum /
        (queries.length : ℚ) := by
  have hpcts : (analyzeAccum queries).all_improvement_pcts =
      queries.map (fun q => q.2.avg_improvement_pct) := by
    simpa using all_improvement_pcts_foldl queries ⟨0, 0, [], []⟩
  unfold analyzeAvg
  rw [hpcts]
  rw [if_neg (by
    simp only [List.isEmpty_iff, List.map_eq_nil_iff]
    exact hq)]
  simp [List.length_map]

/-- Witness for C6 on a two-shape snapshot (the spec's Scenario A weights:
shape X at 60%, shape Y at 2%): the mean is `31`, each shape counted once. -/
theorem analyzeAvg_is_plain_mean_witness :
    ([("x", (⟨1000, 400, 60, ["colA"]⟩ : ShapeData)),
      ("y", (⟨500, 490, 2, ["colA"]⟩ : ShapeData))] ≠
        ([] : List (String × ShapeData))) ∧
    analyzeAvg [("x", (⟨1000, 400, 60, ["colA"]⟩ : ShapeData)),
        ("y", (⟨500, 490, 2, ["colA"]⟩ : ShapeData))] =
      ([("x", (⟨1000, 400, 60, ["colA"]⟩ : ShapeData)),
        ("y", (⟨500, 490, 2, ["colA"]⟩ : ShapeData))].map
          (fun q => q.2.avg_improvement_pct)).sum /
        (([("x", (⟨1000, 400, 60, ["colA"]⟩ : ShapeData)),
          ("y", (⟨500, 490, 2, ["colA"]⟩ : ShapeData))].length : ℚ)) :=
  ⟨by decide,
    analyzeAvg_is_plain_mean
      [("x", ⟨1000, 400, 60, ["colA"]⟩), ("y", ⟨500, 490, 2, ["colA"]⟩)]
      (by decide)⟩

/-! Claim C9: determinism and stable tie-breaking of the ranking -/

theorem sublist_insertDesc (x : String × Nat) (l : List (String × Nat)) :
    l.Sublist (insertDesc x l) := by
  induction l with
  | nil => simp [insertDesc]
  | cons y ys ih =>
      unfold insertDesc
      by_cases h : y.2 ≤ x.2
      · rw [if_pos h]
        exact (List.sublist_cons_self x (y :: ys))
      · rw [if_neg h]
        exact List.Sublist.cons₂ y ih

theorem mem_sortDesc_of_mem (l : List (String × Nat)) (b : String × Nat)
    (hb : b ∈ l) : b ∈ sortDesc l := by
  induction l with
  | nil => simp at hb
  | cons x xs ih =>
      unfold sortDesc
      rcases List.mem_cons.mp hb with rfl | hb'
      · -- b = x: x is a member of insertDesc x (sortDesc xs)
        clear hb
        induction sortDesc xs with
        | nil => simp [insertDesc]
        | cons y ys ihy =>
            unfold insertDesc
            by_cases h : y.2 ≤ b.2
            · rw [if_pos h]; exact List.mem_cons_self _ _
            · rw [if_neg h]; exact List.mem_cons_of_mem y ihy
      · exact (sublist_insertDesc x (sortDesc xs)).mem (ih hb')

theorem cons_sublist_insertDesc (x b : String × Nat)
    (l : List (String × Nat)) (hb : b ∈ l) (hle : b.2 ≤ x.2) :
    [x, b].Sublist (insertDesc x l) := by
  induction l with
  | nil => simp at hb
  | cons y ys ih =>
      unfold insertDesc
      by_cases h : y.2 ≤ x.2
      · rw [if_pos h]
        exact List.Sublist.cons₂ x (List.singleton_sublist.mpr hb)
      · rw [if_neg h]
        rcases List.mem_cons.mp hb with rfl | hb'
        · exact absurd hle h
        · exact List.Sublist.cons y (ih hb')

/-- Stability of the descending sort: two entries with equal counts keep
their relative order. -/
theorem sortDesc_stable (l : List (String × Nat)) (a b : String × Nat)
    (hsub : [a, b].Sublist l) (heq : a.2 = b.2) :
    [a, b].Sublist (sortDesc l) := by
  induction l with
  | nil => simp at hsub
  | cons x xs ih =>
      unfold sortDesc
      cases hsub with
      | cons _ h =>
          exact (ih h).trans (sublist_insertDesc x (sortDesc xs))
      | cons₂ _ h =>
          have hbmem : b ∈ sortDesc xs :=
            mem_sortDesc_of_mem xs b (List.singleton_sublist.mp h)
          exact cons_sublist_insertDesc _ b (sortDesc xs) hbmem
            (le_of_eq heq.symm)

/-- Claim C9: the decision engine is deterministic — identical snapshot,
catalog, configuration and oracle responses give identical recommendations —
and the candidate ranking breaks ties between columns of equal query-shape
frequency stably, by first-seen order in the snapshot. -/
theorem decision_deterministic_and_stable :
    (∀ (cfg : AlerterConfig) (ora : AlerterOracle) (existing : List String)
       (q1 q2 : List (String × ShapeData)), q1 = q2 →
      analyzeWorkload cfg ora existing q1 = analyzeWorkload cfg ora existing q2) ∧
    (∀ (queries : List (String × ShapeData)) (a b : String × Nat),
      [a, b].Sublist (analyzeAccum queries).hot_column_counts → a.2 = b.2 →
      [a, b].Sublist (rankHotColumns queries)) := by
  constructor
  · intro cfg ora existing q1 q2 h
    rw [h]
  · intro queries a b hsub heq
    exact sortDesc_stable (analyzeAccum queries).hot_column_counts a b hsub heq

/-- Witness for C9: on a snapshot where `colA` (seen first) and `colB` tie
with one referencing shape each, the ranking keeps `colA` before `colB`;
and determinism applied at the sample snapshot. -/
theorem decision_deterministic_and_stable_witness :
    (sampleQueries = sampleQueries ∧
      [("colA", 1), ("colB", 1)].Sublist
        (analyzeAccum [("q1", (⟨100, 50, 50, ["colA"]⟩ : ShapeData)),
          ("q2", (⟨100, 50, 50, ["colB"]⟩ : ShapeData))]).hot_column_counts ∧
      (("colA", 1) : String × Nat).2 = (("colB", 1) : String × Nat).2) ∧
    (analyzeWorkload ⟨20, 500000000⟩ ⟨100, fun _ => 1000⟩ [] sampleQueries =
        analyzeWorkload ⟨20, 500000000⟩ ⟨100, fun _ => 1000⟩ [] sampleQueries ∧
      [("colA", 1), ("colB", 1)].Sublist
        (rankHotColumns [("q1", (⟨100, 50, 50, ["colA"]⟩ : ShapeData)),
          ("q2", (⟨100, 50, 50, ["colB"]⟩ : ShapeData))])) :=
  ⟨⟨rfl, by decide, rfl⟩,
    ⟨decision_deterministic_and_stable.1 ⟨20, 500000000⟩ ⟨100, fun _ => 1000⟩
        [] sampleQueries sampleQueries rfl,
      decision_deterministic_and_stable.2
        [("q1", ⟨100, 50, 50, ["colA"]⟩), ("q2", ⟨100, 50, 50, ["colB"]⟩)]
        ("colA", 1) ("colB", 1) (by decide) rfl⟩⟩

/-! Section on `save_stats` and the `last_save` field (lines 519-530, 20-32) -/

/-- The runner's `self.stats` dict (lines 23-30), with timestamps as
naturals. -/
structure WorkloadStats where
  workload_id : Nat
  run_time : Nat
  queries : List (String × QueryEntry)
  phases_completed : Nat
  hot_columns : List String
  last_save : Nat
deriving DecidableEq

/-- Constructor `__init__` (lines 20-30): both `run_time` and `last_save` are set to the
construction time. -/
def initStats (wid t0 : Nat) : WorkloadStats :=
  { workload_id := wid
    run_time := t0
    queries := []
    phases_completed := 0
    hot_columns := []
    last_save := t0 }

/-- Embedding of `save_stats` (lines 519-527) on its success path: first serialize the
current stats object to the file (line 524), and only afterwards set the
in-memory `last_save` to the current time (line 526).  Returns the persisted
snapshot and the updated in-memory state. -/
def saveStats (now : Nat) (s : WorkloadStats) : WorkloadStats × WorkloadStats :=
  (s, { s with last_save := now })

/-- Run a sequence of saves at the given times, collecting every persisted
snapshot and the final in-memory state. -/
def runSaves (s : WorkloadStats) : List Nat → List WorkloadStats × WorkloadStats
  | [] => ([], s)
  | t :: ts =>
    let step := saveStats t s
    let rest := runSaves step.2 ts
    (step.1 :: rest.1, rest.2)

theorem runSaves_last_save_general (ts : List Nat) :
    ∀ s : WorkloadStats,
    ((runSaves s ts).1.map (fun f => f.last_save)) = (s.last_save :: ts).dropLast := by
  induction ts with
  | nil => intro s; simp [runSaves]
  | cons t rest ih =>
      intro s
      simp only [runSaves, saveStats, List.map_cons, ih]
      rfl

/-- Claim C10: `save_stats` serializes first and updates `last_save` only
afterwards, so each persisted snapshot's `last_save` is the timestamp
recorded at the *previous* save — the first persisted snapshot carries the
construction time, and a run of saves at times `t₁, …, tₙ` persists
`last_save` values `t₀, t₁, …, tₙ₋₁`. -/
theorem persisted_last_save_lags (wid t0 : Nat) (ts : List Nat) :
    (∀ (now : Nat) (s : WorkloadStats),
      (saveStats now s).1.last_save = s.last_save ∧
      (saveStats now s).2.last_save = now) ∧
    ((runSaves (initStats wid t0) ts).1.map (fun f => f.last_save)) =
      (t0 :: ts).dropLast := by
  constructor
  · intro now s
    exact ⟨rfl, rfl⟩
  · rw [runSaves_last_save_general ts (initStats wid t0)]
    rfl

end IAAlerter
